import Mathlib

/-!
Shallow embedding of the NiftyBot backtesting core (src/backtest.py).

The embedding models the functions `_normalize_signal`, `backtest` and
`backtest_all`.  A pandas DataFrame row becomes a `Bar`; a possibly-missing
float (NaN, or an absent column) becomes an `Option ℚ`; exact rationals stand
for Python floats.  The simulation state of the `for` loop in `backtest`
(the `trades` list, `in_position`/`entry_price`/`entry_qty`, `capital`)
becomes `BTState`; the trade list is accumulated newest-first (so Python's
`trades.append(...)` is a cons and `trades[-1].update(...)` updates the head)
and is reversed at the end to recover Python's chronological order.
`_ensure_datetime_index` sorts the rows ascending by timestamp; the model
takes the already-sorted bar list as input, and theorems that need sortedness
assume strictly increasing dates (the spec requires unique ascending
timestamps).
-/

namespace NiftyBot

/-- The three normalized trading signals produced by `_normalize_signal`. -/
inductive Signal
  | BUY
  | SELL
  | HOLD
  deriving DecidableEq

/-- A raw value of the `Signal` column: missing (NaN/None), a number, or a
string.  Numbers are modelled as exact rationals. -/
inductive SigVal
  | nan : SigVal
  | num : ℚ → SigVal
  | str : String → SigVal
  deriving DecidableEq

/-- Python `int()` on an exact rational: truncation toward zero
(floor for nonnegative arguments, `-⌊-q⌋ = ⌈q⌉` for negative ones). -/
def pyInt (q : ℚ) : ℤ := if 0 ≤ q then ⌊q⌋ else -⌊-q⌋

/-- `_normalize_signal` (src/backtest.py lines 39-58): NaN ↦ HOLD; a number
is truncated with `int(...)`, 1 ↦ BUY, -1 ↦ SELL, else HOLD; a string is
stripped and upper-cased, "BUY"/"B"/"1" ↦ BUY, "SELL"/"S"/"-1" ↦ SELL,
else HOLD. -/
def normalize_signal (v : SigVal) : Signal :=
  match v with
  | SigVal.nan => Signal.HOLD
  | SigVal.num q =>
      if pyInt q = 1 then Signal.BUY
      else if pyInt q = -1 then Signal.SELL
      else Signal.HOLD
  | SigVal.str s =>
      let u := s.trim.toUpper
      if u = "BUY" ∨ u = "B" ∨ u = "1" then Signal.BUY
      else if u = "SELL" ∨ u = "S" ∨ u = "-1" then Signal.SELL
      else Signal.HOLD

/-- One row of the signal series: timestamp (as an integer date index),
`Open` and `Close` prices (None = NaN or absent column) and the raw signal. -/
structure Bar where
  date : ℤ
  openPrice : Option ℚ
  closePrice : Option ℚ
  signal : SigVal
  deriving DecidableEq

/-- One element of the `trades` list built by `backtest`: the dict
`{Entry Date, Entry Price, Exit Date, Exit Price, Qty, P&L}`; exit fields
are `none` (NaT/NaN) while the trade is open. -/
structure Trade where
  entryDate : ℤ
  entryPrice : ℚ
  exitDate : Option ℤ
  exitPrice : Option ℚ
  qty : ℚ
  pnl : Option ℚ
  deriving DecidableEq

/-- The summary dict returned by `backtest`: Final Capital, Total Trades,
Wins, Win Ratio (%), Total P&L, Return (%). -/
structure Summary where
  finalCapital : ℚ
  totalTrades : ℕ
  wins : ℕ
  winPct : ℚ
  totalPnl : ℚ
  returnPct : ℚ
  deriving DecidableEq

/-- A DataFrame after `_ensure_datetime_index`: its rows (sorted ascending by
date) and whether the `Signal` column is present. -/
structure Frame where
  bars : List Bar
  hasSignal : Bool
  deriving DecidableEq

/-- The mutable state of the simulation loop in `backtest`:
`trades` (newest first), the open position `(entry_price, entry_qty)` when
`in_position`, and the running `capital`. -/
structure BTState where
  trades : List Trade
  pos : Option (ℚ × ℚ)
  capital : ℚ
  deriving DecidableEq

/-- Execution price of a step (src/backtest.py lines 103-109): prefer the
next bar's Open; fall back to its Close; `none` means the step cannot
execute. -/
def execPrice (next : Bar) : Option ℚ :=
  match next.openPrice with
  | some p => some p
  | none => next.closePrice

/-- Force-close price (src/backtest.py lines 142-148): prefer the last bar's
Close; fall back to its Open. -/
def lastPrice (lb : Bar) : Option ℚ :=
  match lb.closePrice with
  | some p => some p
  | none => lb.openPrice

/-- Python's `trades[-1].update(...)`: the list is stored newest-first, so
the most recent trade is the head. -/
def updateLast (f : Trade → Trade) : List Trade → List Trade
  | [] => []
  | t :: ts => f t :: ts

/-- One iteration of the loop in `backtest` (src/backtest.py lines 100-138):
decide on `cur`'s signal, execute at `next`'s price.  No price: skip.
BUY while flat: open a position (quantity = capital / price when the price is
strictly positive, else 0) and append an open trade.  SELL while in
position: fill the exit fields of the most recent trade and reassign
capital.  Anything else: no state change. -/
def btStep (cur next : Bar) (s : BTState) : BTState :=
  match execPrice next with
  | none => s
  | some p =>
    match normalize_signal cur.signal, s.pos with
    | Signal.BUY, none =>
      let qty := if 0 < p then s.capital / p else 0
      { trades := Trade.mk next.date p none none qty none :: s.trades,
        pos := some (p, qty),
        capital := s.capital }
    | Signal.SELL, some (ep, q) =>
      { trades := updateLast
          (fun t => { t with exitDate := some next.date, exitPrice := some p,
                             pnl := some ((p - ep) * q) }) s.trades,
        pos := none,
        capital := q * p }
    | _, _ => s

/-- `for i in range(len(df) - 1)`: fold `btStep` over consecutive bar pairs;
`cur` is the decision bar `i`, the head of the remaining list is the
execution bar `i+1`. -/
def btLoop : Bar → List Bar → BTState → BTState
  | _, [], s => s
  | cur, next :: rest, s => btLoop next rest (btStep cur next s)

/-- End-of-series force-close (src/backtest.py lines 141-158): if still in
position, close the most recent trade at `lastPrice` of the last bar; if no
price is available, just clear the position and leave the trade open. -/
def btClose (lb : Bar) (s : BTState) : BTState :=
  match s.pos with
  | none => s
  | some (ep, q) =>
    match lastPrice lb with
    | none => { s with pos := none }
    | some p =>
      { trades := updateLast
          (fun t => { t with exitDate := some lb.date, exitPrice := some p,
                             pnl := some ((p - ep) * q) }) s.trades,
        pos := none,
        capital := q * p }

/-- The whole simulation pass of `backtest`: run the loop over the bars,
then force-close at the last bar. -/
def btRun (f : Frame) (cap : ℚ) : BTState :=
  match f.bars with
  | [] => BTState.mk [] none cap
  | b :: bs => btClose (bs.getLastD b) (btLoop b bs (BTState.mk [] none cap))

/-- Python `round()` to the nearest integer on an exact rational:
ties go to the even integer (banker's rounding). -/
def pyRound (q : ℚ) : ℤ :=
  let fl := ⌊q⌋
  let r := q - (fl : ℚ)
  if r < 1 / 2 then fl
  else if 1 / 2 < r then fl + 1
  else if fl % 2 = 0 then fl else fl + 1

/-- Python `round(x, 2)`. -/
def pyRound2 (q : ℚ) : ℚ := (pyRound (q * 100) : ℚ) / 100

/-- The zero-activity summary literal used for insufficient data
(src/backtest.py lines 76-83) and by the orchestrator's failure paths. -/
def zeroSummary (cap : ℚ) : Summary := Summary.mk cap 0 0 0 0 0

/-- `backtest` (src/backtest.py lines 61-209).  Fewer than 2 bars or no
Signal column: zero-activity result.  Otherwise simulate, keep only the
completed trades (those with an exit date), and build the summary over
them. -/
def backtest (f : Frame) (initial_capital : ℚ) : List Trade × Summary :=
  if f.bars.length < 2 ∨ f.hasSignal = false then
    ([], zeroSummary initial_capital)
  else
    let st := btRun f initial_capital
    let capital := st.capital
    let trades := st.trades.reverse
    if trades.isEmpty then
      ([], Summary.mk capital 0 0 0 0
        (pyRound2 ((capital - initial_capital) / initial_capital * 100)))
    else
      let completed := trades.filter (fun t => t.exitDate.isSome)
      if completed.isEmpty then
        (completed, Summary.mk capital 0 0 0 0
          (pyRound2 ((capital - initial_capital) / initial_capital * 100)))
      else
        let total := completed.length
        let wins := (completed.filter (fun t => decide (0 < t.pnl.getD 0))).length
        let totalPnl := (completed.map (fun t => t.pnl.getD 0)).sum
        (completed,
          Summary.mk capital total wins
            (pyRound2 ((wins : ℚ) / (total : ℚ) * 100))
            totalPnl
            (pyRound2 ((capital - initial_capital) / initial_capital * 100)))

/-- The trailing-window slice of `backtest_all` (src/backtest.py lines
235-237): both ends inclusive, anchored at the ticker's own last date;
`monthsBack` abstracts `last_date - pd.DateOffset(months=months)`. -/
def sliceBars (monthsBack : ℤ → ℤ) (bars : List Bar) : List Bar :=
  match bars with
  | [] => []
  | b :: bs =>
    let lastDate := List.foldl max b.date (bs.map Bar.date)
    let startDate := monthsBack lastDate
    (b :: bs).filter (fun x => decide (startDate ≤ x.date ∧ x.date ≤ lastDate))

/-- `backtest_all` (src/backtest.py lines 212-270).  For each ticker in
order: an empty table is skipped with `continue` (no output entry at all);
otherwise the last `months` are sliced out with `sliceBars`; an empty slice
or a missing Signal column yields an empty trade list and the zero summary;
otherwise `backtest` runs on the slice.  The Python `try/except` cannot fire
in this total model; its substitution branch would likewise add a
zero-valued entry. -/
def backtest_all (data : List (String × Frame)) (initial_capital : ℚ)
    (monthsBack : ℤ → ℤ) : List (String × List Trade) × List (String × Summary) :=
  match data with
  | [] => ([], [])
  | (ticker, df) :: rest =>
    let acc := backtest_all rest initial_capital monthsBack
    match df.bars with
    | [] => acc
    | b :: bs =>
      let dfSlice := sliceBars monthsBack (b :: bs)
      if dfSlice.isEmpty ∨ df.hasSignal = false then
        ((ticker, []) :: acc.1, (ticker, zeroSummary initial_capital) :: acc.2)
      else
        let r := backtest (Frame.mk dfSlice df.hasSignal) initial_capital
        ((ticker, r.1) :: acc.1, (ticker, r.2) :: acc.2)

/-- A concrete stand-in for `last_date - pd.DateOffset(months=6)` with dates
measured in days, used only to instantiate witnesses. -/
def monthsBack6 (d : ℤ) : ℤ := d - 180

/-- The spec's example series: four bars d0..d3 with signals
BUY, HOLD, SELL, HOLD (in their numeric form 1 / 0 / -1). -/
def exBars : List Bar :=
  [Bar.mk 0 (some 10) (some 10) (SigVal.num 1),
   Bar.mk 1 (some 11) (some 12) (SigVal.num 0),
   Bar.mk 2 (some 13) (some 14) (SigVal.num (-1)),
   Bar.mk 3 (some 15) (some 15) (SigVal.num 0)]

/-- The spec's example series as a frame with a Signal column. -/
def exFrame : Frame := Frame.mk exBars true

/-- Numeric signal 1 normalizes to BUY. -/
theorem normalize_num_one : normalize_signal (SigVal.num 1) = Signal.BUY := by
  norm_num [normalize_signal, pyInt]

/-- Numeric signal 0 normalizes to HOLD. -/
theorem normalize_num_zero : normalize_signal (SigVal.num 0) = Signal.HOLD := by
  norm_num [normalize_signal, pyInt]

/-- Numeric signal -1 normalizes to SELL. -/
theorem normalize_num_negone : normalize_signal (SigVal.num (-1)) = Signal.SELL := by
  norm_num [normalize_signal, pyInt]

/-- A rational truncates to 1 exactly when it lies in [1, 2). -/
theorem pyInt_eq_one_iff (q : ℚ) : pyInt q = 1 ↔ 1 ≤ q ∧ q < 2 := by
  unfold pyInt
  by_cases h : 0 ≤ q
  · rw [if_pos h, Int.floor_eq_iff]
    push_cast
    norm_num
  · rw [if_neg h]
    push_neg at h
    constructor
    · intro hq
      exfalso
      have h0 : (0 : ℤ) ≤ ⌊-q⌋ := Int.floor_nonneg.2 (by linarith)
      omega
    · intro hq
      have hn : ¬(1 : ℚ) ≤ q := by linarith
      exact absurd hq.1 hn

/-- A rational truncates to -1 exactly when it lies in (-2, -1]. -/
theorem pyInt_eq_negone_iff (q : ℚ) : pyInt q = -1 ↔ -2 < q ∧ q ≤ -1 := by
  unfold pyInt
  by_cases h : 0 ≤ q
  · rw [if_pos h]
    constructor
    · intro hq
      exfalso
      have h0 : (0 : ℤ) ≤ ⌊q⌋ := Int.floor_nonneg.2 h
      omega
    · intro hq
      have hn : ¬q ≤ (-1 : ℚ) := by linarith
      exact absurd hq.2 hn
  · rw [if_neg h]
    push_neg at h
    have hrw : -⌊-q⌋ = -1 ↔ ⌊-q⌋ = 1 := by omega
    rw [hrw, Int.floor_eq_iff]
    push_cast
    constructor
    · intro hx
      exact ⟨by linarith [hx.2], by linarith [hx.1]⟩
    · intro hx
      exact ⟨by linarith [hx.2], by linarith [hx.1]⟩

/-- The normalization mapping as the amended spec words it: NaN ↦ HOLD;
a numeric value is truncated toward zero as Python `int()` does, so values
in [1, 2) ↦ BUY and values in (-2, -1] ↦ SELL, every other numeric ↦ HOLD;
a string is stripped and upper-cased before being compared to the
BUY/SELL forms. -/
def specSignalMap (v : SigVal) : Signal :=
  match v with
  | SigVal.nan => Signal.HOLD
  | SigVal.num q =>
      if 1 ≤ q ∧ q < 2 then Signal.BUY
      else if -2 < q ∧ q ≤ -1 then Signal.SELL
      else Signal.HOLD
  | SigVal.str s =>
      let u := s.trim.toUpper
      if u = "BUY" ∨ u = "B" ∨ u = "1" then Signal.BUY
      else if u = "SELL" ∨ u = "S" ∨ u = "-1" then Signal.SELL
      else Signal.HOLD

/-- C5 (amended): `_normalize_signal` maps NaN to HOLD; numeric values are
converted with `int()`-truncation toward zero, so exactly the numerics in
[1, 2) become BUY and exactly those in (-2, -1] become SELL, all other
numerics HOLD; strings are stripped and upper-cased, "BUY"/"B"/"1" become
BUY, "SELL"/"S"/"-1" become SELL, all other strings HOLD. -/
theorem normalize_signal_spec (v : SigVal) :
    normalize_signal v = specSignalMap v := by
  cases v with
  | nan => rfl
  | str s => rfl
  | num q =>
    simp only [normalize_signal, specSignalMap, pyInt_eq_one_iff,
      pyInt_eq_negone_iff]

/-- C5 counterexample: the numeric signal 1.5 is neither 1 nor -1, so the
claim requires HOLD, but the code truncates with `int()` and returns BUY. -/
theorem normalize_signal_cex :
    normalize_signal (SigVal.num (3 / 2)) = Signal.BUY ∧
      Signal.BUY ≠ Signal.HOLD := by
  constructor
  · norm_num [normalize_signal, pyInt]
  · intro hc
    exact Signal.noConfusion hc

/-- C8 counterexample: on the spec's example series with capital 1000 the
SELL decided at d2 executes at d3 (next-bar rule) at Open = 15, so the trade
exits at price 15 on d3 and the final capital is 15000/11 ≈ 1363.64 — not
the 13000/11 ≈ 1181.82 (exit at d2 at 13) that the claim states. -/
theorem spec_example_scenario_cex :
    (backtest exFrame 1000).1.map Trade.exitPrice = [some 15] ∧
    (backtest exFrame 1000).1.map Trade.exitDate = [some 3] ∧
    (backtest exFrame 1000).2.finalCapital = 15000 / 11 ∧
    ((15 : ℚ) ≠ 13) ∧ ((15000 : ℚ) / 11 ≠ 13000 / 11) := by
  norm_num [backtest, btRun, btLoop, btStep, btClose, execPrice, lastPrice,
    normalize_num_one, normalize_num_zero, normalize_num_negone,
    updateLast, exFrame, exBars, pyRound2, pyRound, zeroSummary]

/-- C8 (amended): on the series [(d0,O=10,C=10,BUY), (d1,O=11,C=12,HOLD),
(d2,O=13,C=14,SELL), (d3,O=15,C=15,HOLD)] with initial capital 1000,
backtest produces exactly one closed trade entered at d1 at 11 with
quantity 1000/11, exited at d3 at 15 (the SELL decided at d2 executes at
the next bar), with pnl (15-11)*1000/11 = 4000/11, final capital 15000/11,
and Return (%) = 36.36. -/
theorem spec_example_scenario :
    backtest exFrame 1000 =
      ([Trade.mk 1 11 (some 3) (some 15) (1000 / 11) (some (4000 / 11))],
       Summary.mk (15000 / 11) 1 1 100 (4000 / 11) (909 / 25)) := by
  norm_num [backtest, btRun, btLoop, btStep, btClose, execPrice, lastPrice,
    normalize_num_one, normalize_num_zero, normalize_num_negone,
    updateLast, exFrame, exBars, pyRound2, pyRound, zeroSummary]

/-- C9: with fewer than 2 bars or no Signal column, backtest returns an
empty trade list and a summary with 0 trades, 0 wins, win ratio 0, total
P&L 0 and final capital equal to the initial capital. -/
theorem insufficient_data_result (f : Frame) (cap : ℚ)
    (h : f.bars.length < 2 ∨ f.hasSignal = false) :
    backtest f cap = ([], Summary.mk cap 0 0 0 0 0) := by
  unfold backtest
  rw [if_pos h]
  rfl

/-- C9 witness: an empty frame with one bar and a Signal column. -/
theorem insufficient_data_result_w :
    backtest (Frame.mk [] true) 500 = ([], Summary.mk 500 0 0 0 0 0) :=
  insufficient_data_result (Frame.mk [] true) 500 (Or.inl (by decide))

/-- C3: a decision at bar i executes at bar i+1: when neither Open nor
Close of the next bar is available the step is dropped with no state change
and the scan continues with the next index; the execution price is the next
bar's Open when present, else its Close; an accepted BUY appends a trade
entered at the next bar's date and price, an accepted SELL fills the most
recent trade's exit fields with the next bar's date and price. -/
theorem next_bar_execution (cur next : Bar) (rest : List Bar) (s : BTState) :
    (execPrice next = none →
       btStep cur next s = s ∧ btLoop cur (next :: rest) s = btLoop next rest s)
    ∧ (∀ p, next.openPrice = some p → execPrice next = some p)
    ∧ (next.openPrice = none → execPrice next = next.closePrice)
    ∧ (∀ p, execPrice next = some p → normalize_signal cur.signal = Signal.BUY →
        s.pos = none →
        (btStep cur next s).trades =
          Trade.mk next.date p none none
            (if 0 < p then s.capital / p else 0) none :: s.trades)
    ∧ (∀ p ep q, execPrice next = some p →
        normalize_signal cur.signal = Signal.SELL → s.pos = some (ep, q) →
        (btStep cur next s).trades =
          updateLast (fun t => { t with exitDate := some next.date,
                                        exitPrice := some p,
                                        pnl := some ((p - ep) * q) }) s.trades ∧
        (btStep cur next s).capital = q * p) := by
  refine ⟨fun hp => ⟨?_, ?_⟩, fun p hp => ?_, fun hp => ?_, fun p hp hsig hpos => ?_,
    fun p ep q hp hsig hpos => ⟨?_, ?_⟩⟩
  · simp [btStep, hp]
  · simp [btLoop, btStep, hp]
  · simp [execPrice, hp]
  · simp [execPrice, hp]
  · simp [btStep, hp, hsig, hpos]
  · simp [btStep, hp, hsig, hpos]
  · simp [btStep, hp, hsig, hpos]

/-- C3 witness: a BUY decided on the first bar is executed at the second
bar, priced at the second bar's Open. -/
theorem next_bar_execution_w :
    (btStep (Bar.mk 0 (some 10) (some 10) (SigVal.num 1))
       (Bar.mk 1 (some 11) none (SigVal.num 0))
       (BTState.mk [] none 1000)).trades =
      [Trade.mk 1 11 none none (1000 / 11) none] :=
  ((next_bar_execution (Bar.mk 0 (some 10) (some 10) (SigVal.num 1))
      (Bar.mk 1 (some 11) none (SigVal.num 0)) []
      (BTState.mk [] none 1000)).2.2.2.1 11 rfl normalize_num_one rfl).trans
    (by norm_num)

/-- C4: if a position (entry price ep, quantity q) is still open at the end,
the force-close uses the last bar's Close when present, else the last bar's
Open; with neither price the state only clears the position, so the open
trade keeps its absent exit fields. -/
theorem force_close_fallback (lb : Bar) (s : BTState) (ep q : ℚ)
    (h : s.pos = some (ep, q)) :
    (∀ p, lb.closePrice = some p →
      btClose lb s = BTState.mk
        (updateLast (fun t => { t with exitDate := some lb.date,
                                       exitPrice := some p,
                                       pnl := some ((p - ep) * q) }) s.trades)
        none (q * p))
    ∧ (∀ p, lb.closePrice = none → lb.openPrice = some p →
      btClose lb s = BTState.mk
        (updateLast (fun t => { t with exitDate := some lb.date,
                                       exitPrice := some p,
                                       pnl := some ((p - ep) * q) }) s.trades)
        none (q * p))
    ∧ (lb.closePrice = none → lb.openPrice = none →
      btClose lb s = { s with pos := none }) := by
  refine ⟨fun p hc => ?_, fun p hc ho => ?_, fun hc ho => ?_⟩
  · simp [btClose, lastPrice, h, hc]
  · simp [btClose, lastPrice, h, hc, ho]
  · simp [btClose, lastPrice, h, hc, ho]

/-- C4 witness: the spec's unexecutable-tail scenario — last bar has
Close = NaN and Open = 20, a position of 5 units entered at 10 is
force-closed at 20 with pnl 50 and capital 100. -/
theorem force_close_fallback_w :
    btClose (Bar.mk 9 (some 20) none SigVal.nan)
      (BTState.mk [Trade.mk 7 10 none none 5 none] (some (10, 5)) 200) =
      BTState.mk [Trade.mk 7 10 (some 9) (some 20) 5 (some 50)] none 100 :=
  (((force_close_fallback (Bar.mk 9 (some 20) none SigVal.nan)
      (BTState.mk [Trade.mk 7 10 none none 5 none] (some (10, 5)) 200)
      10 5 rfl).2.1) 20 rfl rfl).trans (by norm_num [updateLast])

/-- C10: a BUY accepted at an execution price that is not strictly positive
opens a trade with quantity 0 instead of dividing by the price; closing a
zero-quantity position (by SELL or by force-close) reassigns capital to
0 * exit price = 0. -/
theorem zero_qty_guard :
    (∀ cur next s p, execPrice next = some p →
      normalize_signal cur.signal = Signal.BUY → s.pos = none → ¬0 < p →
      (btStep cur next s).trades =
        Trade.mk next.date p none none 0 none :: s.trades ∧
      (btStep cur next s).pos = some (p, 0))
    ∧ (∀ cur next s p ep, execPrice next = some p →
      normalize_signal cur.signal = Signal.SELL → s.pos = some (ep, (0 : ℚ)) →
      (btStep cur next s).capital = 0)
    ∧ (∀ lb s p ep, lastPrice lb = some p → s.pos = some (ep, (0 : ℚ)) →
      (btClose lb s).capital = 0) := by
  refine ⟨fun cur next s p hp hsig hpos hnp => ⟨?_, ?_⟩,
    fun cur next s p ep hp hsig hpos => ?_, fun lb s p ep hp hpos => ?_⟩
  · simp [btStep, hp, hsig, hpos, if_neg hnp]
  · simp [btStep, hp, hsig, hpos, if_neg hnp]
  · simp [btStep, hp, hsig, hpos]
  · simp [btClose, hp, hpos]

/-- C10 witness: a BUY executed at price 0 opens a zero-quantity trade, and
force-closing that position at price 7 reassigns capital to 0. -/
theorem zero_qty_guard_w :
    (btStep (Bar.mk 0 (some 10) (some 10) (SigVal.num 1))
       (Bar.mk 1 (some 0) none (SigVal.num 0))
       (BTState.mk [] none 1000)).pos = some ((0 : ℚ), (0 : ℚ)) ∧
    (btClose (Bar.mk 2 (some 7) none SigVal.nan)
       (BTState.mk [Trade.mk 1 0 none none 0 none] (some ((0 : ℚ), (0 : ℚ))) 1000)).capital = 0 :=
  ⟨(zero_qty_guard.1 (Bar.mk 0 (some 10) (some 10) (SigVal.num 1))
      (Bar.mk 1 (some 0) none (SigVal.num 0))
      (BTState.mk [] none 1000) 0 rfl normalize_num_one rfl (by norm_num)).2,
   zero_qty_guard.2.2 (Bar.mk 2 (some 7) none SigVal.nan)
      (BTState.mk [Trade.mk 1 0 none none 0 none] (some (0, 0)) 1000) 7 0 rfl rfl⟩

/-- A series whose only trade stays open: BUY executes at bar 1 and the
last bar has neither Open nor Close, so the force-close finds no price. -/
def cex2Bars : List Bar :=
  [Bar.mk 0 (some 10) (some 10) (SigVal.num 1),
   Bar.mk 1 (some 11) (some 11) (SigVal.num 0),
   Bar.mk 2 none none (SigVal.num 0)]

/-- The unclosable-trade series as a frame with a Signal column. -/
def cex2Frame : Frame := Frame.mk cex2Bars true

/-- C2 counterexample: the simulation ends with one open trade that cannot
be force-closed; the summary indeed counts 0 trades, but the returned trade
list is empty — the open trade does NOT appear in it, contrary to the
claim. -/
theorem open_trade_dropped_cex :
    (btRun cex2Frame 1000).trades = [Trade.mk 1 11 none none (1000 / 11) none] ∧
    (backtest cex2Frame 1000).1 = [] ∧
    (backtest cex2Frame 1000).2 = Summary.mk 1000 0 0 0 0 0 := by
  norm_num [backtest, btRun, btLoop, btStep, btClose, execPrice, lastPrice,
    normalize_num_one, normalize_num_zero, updateLast, cex2Frame, cex2Bars,
    pyRound2, pyRound, zeroSummary]

/-- The completed trades of a simulation, in chronological order: the
trades with an exit date present (`completed = trades_df.dropna(subset=
["Exit Date"])`, src/backtest.py line 177). -/
def completedOf (f : Frame) (cap : ℚ) : List Trade :=
  ((btRun f cap).trades.reverse).filter (fun t => t.exitDate.isSome)

/-- C2 (amended): an open trade at series end that could not be closed is
omitted from the returned trade list — backtest returns exactly the
completed trades, in order — and is excluded from every statistic: Total
Trades counts the completed trades, Wins counts the completed trades with
strictly positive P&L, Total P&L sums over the completed trades, and the
Win Ratio is computed from those two counts. -/
theorem completed_trades_only (f : Frame) (cap : ℚ)
    (h2 : 2 ≤ f.bars.length) (hs : f.hasSignal = true) :
    (backtest f cap).1 = completedOf f cap ∧
    (backtest f cap).2.totalTrades = (completedOf f cap).length ∧
    (backtest f cap).2.wins =
      ((completedOf f cap).filter (fun t => decide (0 < t.pnl.getD 0))).length ∧
    (backtest f cap).2.totalPnl =
      ((completedOf f cap).map (fun t => t.pnl.getD 0)).sum ∧
    (backtest f cap).2.winPct =
      (if (completedOf f cap).isEmpty then 0 else
        pyRound2
          ((((completedOf f cap).filter (fun t => decide (0 < t.pnl.getD 0))).length : ℚ)
            / ((completedOf f cap).length : ℚ) * 100)) := by
  unfold backtest completedOf
  have hc : ¬(f.bars.length < 2 ∨ f.hasSignal = false) := by
    rw [hs]
    simp only [Bool.true_eq_false, or_false, not_lt]
    exact h2
  rw [if_neg hc]
  dsimp only
  by_cases hE : ((btRun f cap).trades.reverse).isEmpty
  · have hnil : (btRun f cap).trades.reverse = [] := List.isEmpty_iff.mp hE
    rw [if_pos hE, hnil, List.filter_nil]
    exact ⟨rfl, rfl, rfl, rfl, rfl⟩
  · rw [if_neg hE]
    by_cases hCE : (((btRun f cap).trades.reverse).filter
        (fun t => t.exitDate.isSome)).isEmpty
    · rw [if_pos hCE, List.isEmpty_iff.mp hCE]
      exact ⟨rfl, rfl, rfl, rfl, rfl⟩
    · rw [if_neg hCE]
      have hCE2 : ¬((((btRun f cap).trades.reverse).filter
          (fun t => t.exitDate.isSome)).isEmpty = true) := hCE
      rw [if_neg hCE2]
      exact ⟨rfl, rfl, rfl, rfl, rfl⟩

/-- C2 witness: on the example series the returned list is exactly the
completed trades and the win count ranges over them. -/
theorem completed_trades_only_w :
    (backtest exFrame 1000).1 = completedOf exFrame 1000 ∧
    (backtest exFrame 1000).2.wins =
      ((completedOf exFrame 1000).filter (fun t => decide (0 < t.pnl.getD 0))).length :=
  ⟨(completed_trades_only exFrame 1000 (by decide) rfl).1,
   (completed_trades_only exFrame 1000 (by decide) rfl).2.2.1⟩

/-- C1 counterexample: a single ticker whose table is empty is skipped by
`continue` without writing any output entry, so both output mappings have
0 keys although the input has 1 ticker. -/
theorem empty_ticker_dropped_cex :
    (backtest_all [("X", Frame.mk [] true)] 1000 monthsBack6).1 = [] ∧
    (backtest_all [("X", Frame.mk [] true)] 1000 monthsBack6).2 = [] ∧
    ([("X", Frame.mk [] true)] : List (String × Frame)).length = 1 :=
  ⟨rfl, rfl, rfl⟩

/-- C1 (amended): both output mappings of backtest_all carry exactly one
entry, in input order, for every input ticker whose table is nonempty —
and a nonempty-table ticker whose slice is empty or whose Signal column is
missing receives the empty trade list and the zero-valued summary (capital
unchanged, 0 trades) — while a ticker with an empty table is dropped from
both outputs entirely. -/
theorem orchestrator_keys (data : List (String × Frame)) (cap : ℚ)
    (mb : ℤ → ℤ) :
    (backtest_all data cap mb).1.map Prod.fst =
      (data.filter (fun pr => !pr.2.bars.isEmpty)).map Prod.fst ∧
    (backtest_all data cap mb).2.map Prod.fst =
      (data.filter (fun pr => !pr.2.bars.isEmpty)).map Prod.fst ∧
    (∀ ticker df, (ticker, df) ∈ data → df.bars ≠ [] →
      ((sliceBars mb df.bars).isEmpty = true ∨ df.hasSignal = false) →
      (ticker, ([] : List Trade)) ∈ (backtest_all data cap mb).1 ∧
      (ticker, zeroSummary cap) ∈ (backtest_all data cap mb).2) := by
  induction data with
  | nil =>
    refine ⟨rfl, rfl, ?_⟩
    intro ticker df hmem hne hfail
    cases hmem
  | cons hd tl ih =>
    obtain ⟨tk, dfh⟩ := hd
    unfold backtest_all
    cases hb : dfh.bars with
    | nil =>
      have hpred : ¬((fun pr : String × Frame => !pr.2.bars.isEmpty) (tk, dfh) = true) := by
        simp [hb]
      rw [@List.filter_cons_of_neg _ (fun pr : String × Frame => !pr.2.bars.isEmpty)
        (tk, dfh) tl hpred]
      dsimp only
      refine ⟨ih.1, ih.2.1, ?_⟩
      intro ticker df hmem hne hfail
      rcases List.mem_cons.mp hmem with heq | hmem2
      · rw [Prod.mk.injEq] at heq
        rw [heq.2] at hne
        exact absurd hb hne
      · exact ih.2.2 ticker df hmem2 hne hfail
    | cons b bs =>
      have hpred : ((fun pr : String × Frame => !pr.2.bars.isEmpty) (tk, dfh) = true) := by
        simp [hb]
      rw [@List.filter_cons_of_pos _ (fun pr : String × Frame => !pr.2.bars.isEmpty)
        (tk, dfh) tl hpred]
      dsimp only
      by_cases hcond : (sliceBars mb (b :: bs)).isEmpty = true ∨ dfh.hasSignal = false
      · rw [if_pos hcond]
        refine ⟨by simp [ih.1], by simp [ih.2.1], ?_⟩
        intro ticker df hmem hne hfail
        rcases List.mem_cons.mp hmem with heq | hmem2
        · rw [Prod.mk.injEq] at heq
          rw [heq.1]
          exact ⟨List.mem_cons_self _ _, List.mem_cons_self _ _⟩
        · have hin := ih.2.2 ticker df hmem2 hne hfail
          exact ⟨List.mem_cons_of_mem _ hin.1, List.mem_cons_of_mem _ hin.2⟩
      · rw [if_neg hcond]
        refine ⟨by simp [ih.1], by simp [ih.2.1], ?_⟩
        intro ticker df hmem hne hfail
        rcases List.mem_cons.mp hmem with heq | hmem2
        · rw [Prod.mk.injEq] at heq
          rw [heq.2] at hfail
          rw [hb] at hfail
          exact absurd hfail hcond
        · have hin := ih.2.2 ticker df hmem2 hne hfail
          exact ⟨List.mem_cons_of_mem _ hin.1, List.mem_cons_of_mem _ hin.2⟩

/-- C1 witness: a ticker with a nonempty table but no Signal column
receives the empty trade list and the zero-valued summary. -/
theorem orchestrator_keys_w :
    ("Y", ([] : List Trade)) ∈
      (backtest_all [("Y", Frame.mk [Bar.mk 0 (some 5) (some 5) SigVal.nan] false)]
        1000 monthsBack6).1 ∧
    ("Y", zeroSummary 1000) ∈
      (backtest_all [("Y", Frame.mk [Bar.mk 0 (some 5) (some 5) SigVal.nan] false)]
        1000 monthsBack6).2 :=
  (orchestrator_keys [("Y", Frame.mk [Bar.mk 0 (some 5) (some 5) SigVal.nan] false)]
      1000 monthsBack6).2.2 "Y" (Frame.mk [Bar.mk 0 (some 5) (some 5) SigVal.nan] false)
    (List.mem_cons_self _ _) (by simp) (Or.inr rfl)

/-- Branch equation: no execution price, no state change. -/
theorem btStep_none {cur next : Bar} {s : BTState} (hp : execPrice next = none) :
    btStep cur next s = s := by
  simp [btStep, hp]

/-- Branch equation: an accepted BUY opens a position and appends a trade. -/
theorem btStep_buy {cur next : Bar} {s : BTState} {p : ℚ}
    (hp : execPrice next = some p)
    (hsig : normalize_signal cur.signal = Signal.BUY) (hpos : s.pos = none) :
    btStep cur next s = BTState.mk
      (Trade.mk next.date p none none (if 0 < p then s.capital / p else 0) none
        :: s.trades)
      (some (p, if 0 < p then s.capital / p else 0)) s.capital := by
  simp [btStep, hp, hsig, hpos]

/-- Branch equation: an accepted SELL fills the most recent trade's exit
fields and reassigns capital. -/
theorem btStep_sell {cur next : Bar} {s : BTState} {p ep q : ℚ}
    (hp : execPrice next = some p)
    (hsig : normalize_signal cur.signal = Signal.SELL)
    (hpos : s.pos = some (ep, q)) :
    btStep cur next s = BTState.mk
      (updateLast (fun u => { u with exitDate := some next.date,
                                     exitPrice := some p,
                                     pnl := some ((p - ep) * q) }) s.trades)
      none (q * p) := by
  simp [btStep, hp, hsig, hpos]

/-- Branch equation: HOLD never changes the state. -/
theorem btStep_hold {cur next : Bar} {s : BTState}
    (hsig : normalize_signal cur.signal = Signal.HOLD) :
    btStep cur next s = s := by
  cases hp : execPrice next with
  | none => simp [btStep, hp]
  | some p =>
    cases hpos : s.pos with
    | none => simp [btStep, hp, hsig, hpos]
    | some pq => simp [btStep, hp, hsig, hpos]

/-- Branch equation: BUY while a position is open is a no-op. -/
theorem btStep_buy_inpos {cur next : Bar} {s : BTState} {pq : ℚ × ℚ}
    (hsig : normalize_signal cur.signal = Signal.BUY)
    (hpos : s.pos = some pq) :
    btStep cur next s = s := by
  cases hp : execPrice next with
  | none => simp [btStep, hp]
  | some p => simp [btStep, hp, hsig, hpos]

/-- Branch equation: SELL while flat is a no-op. -/
theorem btStep_sell_flat {cur next : Bar} {s : BTState}
    (hsig : normalize_signal cur.signal = Signal.SELL) (hpos : s.pos = none) :
    btStep cur next s = s := by
  cases hp : execPrice next with
  | none => simp [btStep, hp]
  | some p => simp [btStep, hp, hsig, hpos]

/-- Chronological precedence in the newest-first trade list: the older
trade (right) is closed strictly before the newer one (left) entered. -/
def Rprec (a b : Trade) : Prop := ∃ d, b.exitDate = some d ∧ d < a.entryDate

/-- The position scalars mirror the most recent trade: whenever a position
is open, the head of the trade list is an open trade recording the same
entry price and quantity. -/
def PosConsistent (s : BTState) : Prop :=
  ∀ ep q, s.pos = some (ep, q) →
    ∃ t ts, s.trades = t :: ts ∧ t.entryPrice = ep ∧ t.qty = q ∧
      t.exitDate = none

/-- Loop invariant of the simulation, with `bound` the date of the bar about
to be decided: the newest-first trade list is chronologically chained, all
recorded dates are at most `bound`, the open position (if any) is the head
trade, a flat state has only closed trades, and every non-head trade is
closed. -/
structure LoopInv (bound : ℤ) (s : BTState) : Prop where
  chain : List.Chain' Rprec s.trades
  upperE : ∀ t ∈ s.trades, t.entryDate ≤ bound
  upperX : ∀ t ∈ s.trades, ∀ d, t.exitDate = some d → d ≤ bound
  posInv : PosConsistent s
  flatClosed : s.pos = none → ∀ t ∈ s.trades, t.exitDate.isSome
  tailClosed : ∀ t ∈ s.trades.tail, t.exitDate.isSome

/-- The loop invariant is monotone in the date bound. -/
theorem LoopInv.mono {b1 b2 : ℤ} {s : BTState} (h : LoopInv b1 s)
    (hb : b1 ≤ b2) : LoopInv b2 s :=
  ⟨h.chain, fun t ht => (h.upperE t ht).trans hb,
   fun t ht d hd => (h.upperX t ht d hd).trans hb,
   h.posInv, h.flatClosed, h.tailClosed⟩

/-- The loop invariant holds in the initial state. -/
theorem LoopInv.init (bound : ℤ) (cap : ℚ) :
    LoopInv bound (BTState.mk [] none cap) := by
  refine ⟨List.chain'_nil, ?_, ?_, ?_, ?_, ?_⟩
  · intro t ht
    cases ht
  · intro t ht
    cases ht
  · intro ep q hpq
    cases hpq
  · intro _ t ht
    cases ht
  · intro t ht
    cases ht

/-- One simulation step preserves the loop invariant, moving the bound from
the decision bar's date to the execution bar's date. -/
theorem LoopInv.step {cur next : Bar} {s : BTState} (h : LoopInv cur.date s)
    (hd : cur.date < next.date) : LoopInv next.date (btStep cur next s) := by
  cases hp : execPrice next with
  | none =>
    rw [btStep_none hp]
    exact h.mono hd.le
  | some p =>
    cases hsig : normalize_signal cur.signal with
    | HOLD =>
      rw [btStep_hold hsig]
      exact h.mono hd.le
    | BUY =>
      cases hpos : s.pos with
      | some pq =>
        rw [btStep_buy_inpos hsig hpos]
        exact h.mono hd.le
      | none =>
        rw [btStep_buy hp hsig hpos]
        refine ⟨?_, ?_, ?_, ?_, ?_, ?_⟩
        · refine List.chain'_cons'.mpr ⟨?_, h.chain⟩
          intro y hy
          have hymem : y ∈ s.trades := List.mem_of_mem_head? hy
          obtain ⟨d, hyd⟩ := Option.isSome_iff_exists.mp (h.flatClosed hpos y hymem)
          exact ⟨d, hyd, lt_of_le_of_lt (h.upperX y hymem d hyd) hd⟩
        · intro t ht
          rcases List.mem_cons.mp ht with rfl | hmem
          · exact le_refl next.date
          · exact (h.upperE t hmem).trans hd.le
        · intro t ht d hd'
          rcases List.mem_cons.mp ht with rfl | hmem
          · simp at hd'
          · exact (h.upperX t hmem d hd').trans hd.le
        · intro ep' q' hpq
          simp only [Option.some.injEq, Prod.mk.injEq] at hpq
          exact ⟨_, s.trades, rfl, hpq.1, hpq.2, rfl⟩
        · intro h0
          simp at h0
        · intro t ht
          exact h.flatClosed hpos t ht
    | SELL =>
      cases hpos : s.pos with
      | none =>
        rw [btStep_sell_flat hsig hpos]
        exact h.mono hd.le
      | some pq =>
        obtain ⟨ep, q⟩ := pq
        rw [btStep_sell hp hsig hpos]
        obtain ⟨t, ts, htr, hte, htq, htx⟩ := h.posInv ep q hpos
        have hupd : updateLast (fun u => { u with exitDate := some next.date,
                                                  exitPrice := some p,
                                                  pnl := some ((p - ep) * q) }) s.trades
            = { t with exitDate := some next.date,
                       exitPrice := some p,
                       pnl := some ((p - ep) * q) } :: ts := by
          rw [htr]
          rfl
        rw [hupd]
        have hch : List.Chain' Rprec (t :: ts) := htr ▸ h.chain
        refine ⟨?_, ?_, ?_, ?_, ?_, ?_⟩
        · refine List.chain'_cons'.mpr ⟨?_, (List.chain'_cons'.mp hch).2⟩
          intro y hy
          obtain ⟨d, hyd, hlt⟩ := (List.chain'_cons'.mp hch).1 y hy
          exact ⟨d, hyd, hlt⟩
        · intro u hu
          rcases List.mem_cons.mp hu with rfl | hmem
          · have : t ∈ s.trades := by
              rw [htr]
              exact List.mem_cons_self t ts
            exact (h.upperE t this).trans hd.le
          · have : u ∈ s.trades := by
              rw [htr]
              exact List.mem_cons_of_mem t hmem
            exact (h.upperE u this).trans hd.le
        · intro u hu d hd'
          rcases List.mem_cons.mp hu with rfl | hmem
          · have hdd : next.date = d := Option.some.inj hd'
            rw [← hdd]
          · have : u ∈ s.trades := by
              rw [htr]
              exact List.mem_cons_of_mem t hmem
            exact (h.upperX u this d hd').trans hd.le
        · intro ep' q' hpq
          simp at hpq
        · intro _ u hu
          rcases List.mem_cons.mp hu with rfl | hmem
          · rfl
          · have : u ∈ s.trades.tail := by
              rw [htr]
              exact hmem
            exact h.tailClosed u this
        · intro u hu
          have : u ∈ s.trades.tail := by
            rw [htr]
            exact hu
          exact h.tailClosed u this

/-- Folding the loop over a date-sorted list of bars preserves the
invariant up to the last bar's date. -/
theorem btLoop_inv (bs : List Bar) : ∀ (cur : Bar) (s : BTState),
    LoopInv cur.date s →
    List.Chain' (fun a b : Bar => a.date < b.date) (cur :: bs) →
    LoopInv (bs.getLastD cur).date (btLoop cur bs s) := by
  induction bs with
  | nil =>
    intro cur s h _
    exact h
  | cons next rest ih =>
    intro cur s h hchain
    have h1 := List.chain'_cons.mp hchain
    rw [List.getLastD_cons]
    exact ih next (btStep cur next s) (h.step h1.1) h1.2

/-- The force-close keeps the chronological chain and keeps every non-head
trade closed. -/
theorem btClose_inv {lb : Bar} {s : BTState} (h : LoopInv lb.date s) :
    List.Chain' Rprec (btClose lb s).trades ∧
    (∀ t ∈ (btClose lb s).trades.tail, t.exitDate.isSome) := by
  cases hpos : s.pos with
  | none =>
    simp only [btClose, hpos]
    exact ⟨h.chain, h.tailClosed⟩
  | some pq =>
    obtain ⟨ep, q⟩ := pq
    obtain ⟨t, ts, htr, hte, htq, htx⟩ := h.posInv ep q hpos
    cases hlp : lastPrice lb with
    | none =>
      simp only [btClose, hpos, hlp]
      exact ⟨h.chain, h.tailClosed⟩
    | some p =>
      simp only [btClose, hpos, hlp]
      have hupd : updateLast (fun u => { u with exitDate := some lb.date,
                                                exitPrice := some p,
                                                pnl := some ((p - ep) * q) }) s.trades
          = { t with exitDate := some lb.date,
                     exitPrice := some p,
                     pnl := some ((p - ep) * q) } :: ts := by
        rw [htr]
        rfl
      rw [hupd]
      have hch : List.Chain' Rprec (t :: ts) := htr ▸ h.chain
      constructor
      · refine List.chain'_cons'.mpr ⟨?_, (List.chain'_cons'.mp hch).2⟩
        intro y hy
        obtain ⟨d, hyd, hlt⟩ := (List.chain'_cons'.mp hch).1 y hy
        exact ⟨d, hyd, hlt⟩
      · intro u hu
        have : u ∈ s.trades.tail := by
          rw [htr]
          exact hu
        exact h.tailClosed u this

/-- C6: with strictly increasing bar dates, the simulated trade list is
single-position: in chronological order every trade except possibly the
last is closed and each trade's exit strictly precedes the next trade's
entry (no overlapping open intervals); moreover a BUY while a position is
open and a SELL while flat are no-ops with no state change. -/
theorem single_position (f : Frame) (cap : ℚ)
    (hsorted : List.Chain' (fun a b : Bar => a.date < b.date) f.bars) :
    List.Chain' (fun a b : Trade => ∃ d, a.exitDate = some d ∧ d < b.entryDate)
      ((btRun f cap).trades.reverse) ∧
    (∀ t ∈ ((btRun f cap).trades).tail, t.exitDate.isSome) ∧
    (∀ (cur next : Bar) (s : BTState) (pq : ℚ × ℚ),
      normalize_signal cur.signal = Signal.BUY → s.pos = some pq →
      btStep cur next s = s) ∧
    (∀ (cur next : Bar) (s : BTState),
      normalize_signal cur.signal = Signal.SELL → s.pos = none →
      btStep cur next s = s) := by
  refine ⟨?_, ?_, fun cur next s pq hsig hpos => btStep_buy_inpos hsig hpos,
    fun cur next s hsig hpos => btStep_sell_flat hsig hpos⟩
  all_goals
    rcases f with ⟨bars, hasSig⟩
    cases bars with
    | nil =>
      simp [btRun]
    | cons b bs =>
      have hinv := btLoop_inv bs b (BTState.mk [] none cap)
        (LoopInv.init b.date cap) hsorted
      have hfin := btClose_inv hinv
      simp only [btRun]
      first
      | exact List.chain'_reverse.mpr hfin.1
      | exact hfin.2

/-- C6 witness: the example series has strictly increasing dates, and every
non-head trade of its simulation is closed. -/
theorem single_position_w :
    List.Chain' (fun a b : Bar => a.date < b.date) exFrame.bars ∧
    (∀ t ∈ ((btRun exFrame 1000).trades).tail, t.exitDate.isSome) :=
  ⟨by norm_num [exFrame, exBars, List.chain'_cons, List.chain'_singleton],
   (single_position exFrame 1000
     (by norm_num [exFrame, exBars, List.chain'_cons, List.chain'_singleton])).2.1⟩

/-- C7: a simulation step either leaves the capital unchanged or closes a
trade, in which case the new capital is exactly the closed trade's quantity
times its exit price; likewise for the force-close; and the
position/trade-head consistency this relies on holds initially and is
preserved by every step and by the force-close. -/
theorem capital_on_close (cur next lb : Bar) (s : BTState)
    (h : PosConsistent s) :
    ((btStep cur next s).capital = s.capital ∨
      (s.pos.isSome ∧ (btStep cur next s).pos = none ∧
        ∃ t ts p, (btStep cur next s).trades = t :: ts ∧
          t.exitPrice = some p ∧ (btStep cur next s).capital = t.qty * p)) ∧
    ((btClose lb s).capital = s.capital ∨
      (s.pos.isSome ∧ (btClose lb s).pos = none ∧
        ∃ t ts p, (btClose lb s).trades = t :: ts ∧
          t.exitPrice = some p ∧ (btClose lb s).capital = t.qty * p)) ∧
    PosConsistent (btStep cur next s) ∧
    PosConsistent (btClose lb s) ∧
    (∀ c : ℚ, PosConsistent (BTState.mk [] none c)) := by
  refine ⟨?_, ?_, ?_, ?_, ?_⟩
  · cases hp : execPrice next with
    | none =>
      rw [btStep_none hp]
      exact Or.inl rfl
    | some p =>
      cases hsig : normalize_signal cur.signal with
      | HOLD =>
        rw [btStep_hold hsig]
        exact Or.inl rfl
      | BUY =>
        cases hpos : s.pos with
        | some pq =>
          rw [btStep_buy_inpos hsig hpos]
          exact Or.inl rfl
        | none =>
          rw [btStep_buy hp hsig hpos]
          exact Or.inl rfl
      | SELL =>
        cases hpos : s.pos with
        | none =>
          rw [btStep_sell_flat hsig hpos]
          exact Or.inl rfl
        | some pq =>
          obtain ⟨ep, q⟩ := pq
          obtain ⟨t, ts, htr, hte, htq, htx⟩ := h ep q hpos
          rw [btStep_sell hp hsig hpos]
          refine Or.inr ⟨rfl, rfl, ?_⟩
          refine ⟨{ t with exitDate := some next.date,
                           exitPrice := some p,
                           pnl := some ((p - ep) * q) }, ts, p, ?_, rfl, ?_⟩
          · show updateLast _ s.trades = _
            rw [htr]
            rfl
          · show q * p = t.qty * p
            rw [htq]
  · cases hpos : s.pos with
    | none =>
      simp only [btClose, hpos]
      exact Or.inl (by trivial)
    | some pq =>
      obtain ⟨ep, q⟩ := pq
      obtain ⟨t, ts, htr, hte, htq, htx⟩ := h ep q hpos
      cases hlp : lastPrice lb with
      | none =>
        simp only [btClose, hpos, hlp]
        exact Or.inl (by trivial)
      | some p =>
        simp only [btClose, hpos, hlp]
        refine Or.inr ⟨by trivial, by trivial, ?_⟩
        refine ⟨{ t with exitDate := some lb.date,
                         exitPrice := some p,
                         pnl := some ((p - ep) * q) }, ts, p, ?_, rfl, ?_⟩
        · show updateLast _ s.trades = _
          rw [htr]
          rfl
        · show q * p = t.qty * p
          rw [htq]
  · cases hp : execPrice next with
    | none =>
      rw [btStep_none hp]
      exact h
    | some p =>
      cases hsig : normalize_signal cur.signal with
      | HOLD =>
        rw [btStep_hold hsig]
        exact h
      | BUY =>
        cases hpos : s.pos with
        | some pq =>
          rw [btStep_buy_inpos hsig hpos]
          exact h
        | none =>
          rw [btStep_buy hp hsig hpos]
          intro ep' q' hpq
          simp only [Option.some.injEq, Prod.mk.injEq] at hpq
          exact ⟨_, s.trades, rfl, hpq.1, hpq.2, rfl⟩
      | SELL =>
        cases hpos : s.pos with
        | none =>
          rw [btStep_sell_flat hsig hpos]
          exact h
        | some pq =>
          obtain ⟨ep, q⟩ := pq
          rw [btStep_sell hp hsig hpos]
          intro ep' q' hpq
          simp at hpq
  · cases hpos : s.pos with
    | none =>
      simp only [btClose, hpos]
      exact h
    | some pq =>
      obtain ⟨ep, q⟩ := pq
      cases hlp : lastPrice lb with
      | none =>
        simp only [btClose, hpos, hlp]
        intro ep' q' hpq
        simp at hpq
      | some p =>
        simp only [btClose, hpos, hlp]
        intro ep' q' hpq
        simp at hpq
  · intro c ep q hpq
    cases hpq

/-- C7 witness: a SELL executed at 13 against an open position of 5 units
reassigns capital to the closed trade's quantity times its exit price. -/
theorem capital_on_close_w :
    (btStep (Bar.mk 2 none none (SigVal.num (-1)))
        (Bar.mk 3 (some 13) none (SigVal.num 0))
        (BTState.mk [Trade.mk 1 11 none none 5 none] (some (11, 5)) 1000)).capital =
      (BTState.mk [Trade.mk 1 11 none none 5 none] (some (11, 5)) 1000).capital ∨
    ((BTState.mk [Trade.mk 1 11 none none 5 none] (some (11, 5)) 1000).pos.isSome ∧
      (btStep (Bar.mk 2 none none (SigVal.num (-1)))
        (Bar.mk 3 (some 13) none (SigVal.num 0))
        (BTState.mk [Trade.mk 1 11 none none 5 none] (some (11, 5)) 1000)).pos = none ∧
      ∃ t ts p,
        (btStep (Bar.mk 2 none none (SigVal.num (-1)))
          (Bar.mk 3 (some 13) none (SigVal.num 0))
          (BTState.mk [Trade.mk 1 11 none none 5 none] (some (11, 5)) 1000)).trades
            = t :: ts ∧
        t.exitPrice = some p ∧
        (btStep (Bar.mk 2 none none (SigVal.num (-1)))
          (Bar.mk 3 (some 13) none (SigVal.num 0))
          (BTState.mk [Trade.mk 1 11 none none 5 none] (some (11, 5)) 1000)).capital
            = t.qty * p) :=
  (capital_on_close (Bar.mk 2 none none (SigVal.num (-1)))
    (Bar.mk 3 (some 13) none (SigVal.num 0)) (Bar.mk 3 none none SigVal.nan)
    (BTState.mk [Trade.mk 1 11 none none 5 none] (some (11, 5)) 1000)
    (by
      intro ep q hpq
      simp only [Option.some.injEq, Prod.mk.injEq] at hpq
      exact ⟨Trade.mk 1 11 none none 5 none, [], rfl, hpq.1, hpq.2, rfl⟩)).1

end NiftyBot
